import Mathlib

/-!
Verification of the zenml step-input resolution and model-version layer.

Part 1 embeds `src/zenml/orchestrators/input_utils.py` (resolve_step_inputs).
Part 2 models the model-version registry and artifact index from the spec,
since the corresponding source files (`zenml/model/model_version.py`,
`zenml/models/model_models.py`) are not part of the excerpt.
-/

set_option autoImplicit false

namespace ZenML

/-- Python-dict lookup over an association list built by successive inserts:
the last binding for a key wins (later inserts overwrite earlier ones). -/
def dictGet {α : Type} : List (String × α) → String → Option α
  | [], _ => none
  | (k', v) :: rest, k =>
    match dictGet rest k with
    | some v' => some v'
    | none => if k' = k then some v else none

/-- A recorded step run: name (unique within the run), id, and the mapping
from output name to produced artifact id. -/
structure StepRun where
  name : String
  id : Nat
  outputs : List (String × Nat)
deriving Repr, DecidableEq

/-- A declared input: the `(upstream_step_name, output_name)` pair from
`step.spec.inputs`. -/
structure InputSpec where
  step_name : String
  output_name : String
deriving Repr, DecidableEq

/-- The parts of a compiled `Step` read by `resolve_step_inputs`:
`spec.inputs`, `config.external_input_artifacts` (already resolved to
artifact ids, since external-artifact resolution is out of scope here),
and `spec.upstream_steps`. -/
structure Step where
  inputs : List (String × InputSpec)
  external_input_artifacts : List (String × Nat)
  upstream_steps : List String
deriving Repr, DecidableEq

/-- The two kinds of exception `resolve_step_inputs` can raise:
`InputResolutionError` (raised explicitly) and Python's plain `KeyError`
(escaping from the parent-step-id dict lookup). -/
inductive ResolveError where
  | inputResolution (msg : String)
  | keyError (key : String)
deriving Repr, DecidableEq

/-- `current_run_steps`: the run's step runs indexed by step name. -/
def stepsByName (runSteps : List StepRun) : List (String × StepRun) :=
  runSteps.map (fun s => (s.name, s))

/-- The first loop of `resolve_step_inputs`: resolve each declared input,
raising `InputResolutionError` on a missing step or a missing output. -/
def resolveDeclaredInputs (steps : List (String × StepRun)) :
    List (String × InputSpec) → Except ResolveError (List (String × Nat))
  | [] => Except.ok []
  | (name, inp) :: rest =>
    match dictGet steps inp.step_name with
    | none => Except.error (ResolveError.inputResolution
        ("No step " ++ inp.step_name ++ " found in current run."))
    | some step_run =>
      match dictGet step_run.outputs inp.output_name with
      | none => Except.error (ResolveError.inputResolution
          ("No output " ++ inp.output_name ++ " found for step " ++
            inp.step_name ++ "."))
      | some artifact =>
        match resolveDeclaredInputs steps rest with
        | Except.error e => Except.error e
        | Except.ok out => Except.ok ((name, artifact) :: out)

/-- The final list comprehension of `resolve_step_inputs`: look up each
declared upstream step's id; a missing name escapes as a plain `KeyError`. -/
def resolveParentIds (steps : List (String × StepRun)) :
    List String → Except ResolveError (List Nat)
  | [] => Except.ok []
  | u :: rest =>
    match dictGet steps u with
    | none => Except.error (ResolveError.keyError u)
    | some s =>
      match resolveParentIds steps rest with
      | Except.error e => Except.error e
      | Except.ok ids => Except.ok (s.id :: ids)

/-- `resolve_step_inputs` from `zenml/orchestrators/input_utils.py`:
declared inputs are resolved first, then external artifacts are appended,
then the parent step ids are collected. -/
def resolve_step_inputs (step : Step) (runSteps : List StepRun) :
    Except ResolveError (List (String × Nat) × List Nat) :=
  let steps := stepsByName runSteps
  match resolveDeclaredInputs steps step.inputs with
  | Except.error e => Except.error e
  | Except.ok declared =>
    match resolveParentIds steps step.upstream_steps with
    | Except.error e => Except.error e
    | Except.ok parents =>
      Except.ok (declared ++ step.external_input_artifacts, parents)

/-- A declared input fails when its upstream step is absent from the run,
or the step is present but lacks the named output. -/
def inputFails (steps : List (String × StepRun)) (inp : InputSpec) : Prop :=
  dictGet steps inp.step_name = none ∨
    ∃ s, dictGet steps inp.step_name = some s ∧
      dictGet s.outputs inp.output_name = none

def demoRunSteps : List StepRun := [⟨"trainer", 7, [("model", 42)]⟩]

def demoStepOk : Step :=
  ⟨[("m", ⟨"trainer", "model"⟩)], [("ext", 5)], ["trainer"]⟩

def demoStepBadUpstream : Step :=
  ⟨[("m", ⟨"trainer", "model"⟩)], [], ["trainer", "ghost"]⟩

/-- Modelled from the spec: a logical artifact key
`pipeline_name::step_name::output_name` of a model version's artifact-link
mapping (the source file `zenml/models/model_models.py` is missing from the
excerpt). -/
structure LogicalKey where
  pipeline : String
  step : String
  output : String
deriving Repr, DecidableEq

/-- A sub-version map: string sub-version (an auto-incrementing integer
string) to artifact id. -/
abbrev SubVersions := List (String × Nat)

/-- Modelled from the spec: numeric value of an integer-string sub-version
(sub-versions are auto-incrementing integer strings). -/
def subNum (s : String) : Nat :=
  s.data.foldl (fun n c => n * 10 + (c.toNat - 48)) 0

/-- Modelled from the spec: the matching condition of an optional
pipeline-name/step-name disambiguator. -/
def optMatches (o : Option String) (s : String) : Bool :=
  match o with
  | none => true
  | some v => decide (v = s)

/-- Modelled from the spec: step 1 of the Model Version Artifact Index
algorithm — filter the recorded keys to those whose trailing name component
matches the requested logical name, further filtered by the pipeline/step
disambiguators when provided. -/
def matchingKeys (links : List (LogicalKey × SubVersions)) (name : String)
    (pipeline_name step_name : Option String) :
    List (LogicalKey × SubVersions) :=
  links.filter (fun kv =>
    decide (kv.1.output = name) && optMatches pipeline_name kv.1.pipeline &&
      optMatches step_name kv.1.step)

/-- Modelled from the spec: select the numerically highest sub-version entry
(the "latest" sub-version); earlier entries win ties. -/
def latestSub : SubVersions → Option (String × Nat)
  | [] => none
  | e :: rest =>
    match latestSub rest with
    | none => some e
    | some e' => if subNum e'.1 > subNum e.1 then some e' else some e

/-- Outcome of an artifact-index lookup: a resolved artifact id, a not-found
result (`None` in the source), or the `RuntimeError`-class
ambiguous-reference failure carrying the colliding keys. -/
inductive LookupResult where
  | found (artifact : Nat)
  | notFound
  | ambiguous (candidates : List LogicalKey)
deriving Repr, DecidableEq

/-- Modelled from the spec: `get_data_artifact` of the Model Version
Artifact Index (source `zenml/models/model_models.py` missing from the
excerpt): filter keys by trailing name and disambiguators; zero matches is
not-found; more than one match is the ambiguous-reference error naming the
colliding candidates; exactly one match selects the explicit sub-version
(not-found if absent) or else the numerically highest sub-version. -/
def get_data_artifact (links : List (LogicalKey × SubVersions))
    (name : String) (pipeline_name step_name : Option String)
    (version : Option String) : LookupResult :=
  match matchingKeys links name pipeline_name step_name with
  | [] => LookupResult.notFound
  | [kv] =>
    match version with
    | some v =>
      match dictGet kv.2 v with
      | some a => LookupResult.found a
      | none => LookupResult.notFound
    | none =>
      match latestSub kv.2 with
      | some e => LookupResult.found e.2
      | none => LookupResult.notFound
  | kv₁ :: kv₂ :: rest =>
    LookupResult.ambiguous ((kv₁ :: kv₂ :: rest).map Prod.fst)

def demoCollisionLinks : List (LogicalKey × SubVersions) :=
  [(⟨"bar", "bar", "artifact"⟩, [("1", 100)]),
   (⟨"foo", "foo", "artifact"⟩, [("1", 101)])]

def demoSubLinks : List (LogicalKey × SubVersions) :=
  [(⟨"foo", "bar", "artifact"⟩, [("1", 100), ("2", 101)])]

/-- Modelled from the spec: a model version record — id, name (stringified
number if not user-specified), monotonically increasing number, optional
stage, the two-level artifact-link mapping, and the run-link mapping
(source `zenml/model/model_version.py` missing from the excerpt). -/
structure ModelVersionRec where
  id : Nat
  name : String
  number : Nat
  stage : Option String
  data_artifact_ids : List (LogicalKey × SubVersions)
  pipeline_run_ids : List (String × Nat)
deriving Repr, DecidableEq

/-- Modelled from the spec: the Model Version Registry state for one model —
its versions in creation order, a fresh-id counter, and the per-run-lineage
cache binding a lineage key to the version id created for it. -/
structure RegistryState where
  versions : List ModelVersionRec
  nextId : Nat
  runContext : List (String × Nat)
deriving Repr, DecidableEq

/-- Modelled from the spec: the tagged version-identifier variant —
unset, explicit name, stage qualifier, or the synthetic `latest`. -/
inductive VersionId where
  | unset
  | byName (name : String)
  | byStage (stage : String)
  | latest
deriving Repr, DecidableEq

/-- The maximum existing version number (0 if no versions exist). -/
def maxNumber (vs : List ModelVersionRec) : Nat :=
  vs.foldl (fun m v => max m v.number) 0

/-- Modelled from the spec: the next version number = 1 + max existing
version number for the model (0 if none exist). -/
def nextNumber (st : RegistryState) : Nat := 1 + maxNumber st.versions

def findByName (vs : List ModelVersionRec) (n : String) :
    Option ModelVersionRec :=
  vs.find? (fun v => decide (v.name = n))

def findByStage (vs : List ModelVersionRec) (s : String) :
    Option ModelVersionRec :=
  vs.find? (fun v => decide (v.stage = some s))

def findById (vs : List ModelVersionRec) (i : Nat) :
    Option ModelVersionRec :=
  vs.find? (fun v => decide (v.id = i))

/-- Modelled from the spec: `latest` resolves to the version with the
highest version number. -/
def findLatest : List ModelVersionRec → Option ModelVersionRec
  | [] => none
  | v :: rest =>
    match findLatest rest with
    | none => some v
    | some w => if w.number > v.number then some w else some v

/-- Modelled from the spec: `get model version` (read-only lookup) — exact
name match for an explicit name, current stage holder for a stage, max
number for `latest`, undefined for an unset identifier; `none` is the
`KeyError`-class not-found failure. -/
def getModelVersion (st : RegistryState) : VersionId → Option ModelVersionRec
  | VersionId.unset => none
  | VersionId.byName n => findByName st.versions n
  | VersionId.byStage s => findByStage st.versions s
  | VersionId.latest => findLatest st.versions

/-- Modelled from the spec: create a new version — number = next integer,
name defaulting to the stringified number, id from the fresh counter; the
run-lineage cache records the association for recovery. -/
def createVersion (st : RegistryState) (lineage : String)
    (name : Option String) : ModelVersionRec × RegistryState :=
  let num := nextNumber st
  let v : ModelVersionRec :=
    { id := st.nextId, name := name.getD (toString num), number := num,
      stage := none, data_artifact_ids := [], pipeline_run_ids := [] }
  (v, { versions := st.versions ++ [v], nextId := st.nextId + 1,
        runContext := st.runContext ++ [(lineage, v.id)] })

/-- Modelled from the spec: `get-or-create model version` — an unset
identifier reattaches to the version already tracked for the current run
lineage or else creates a new running version; an explicit name looks up
and falls back to creation with that literal name; a stage qualifier
(including `latest`) never spawns a version and fails when absent. -/
def getOrCreateModelVersion (st : RegistryState) (lineage : String) :
    VersionId → Option (ModelVersionRec × RegistryState)
  | VersionId.unset =>
    match dictGet st.runContext lineage with
    | some vid =>
      match findById st.versions vid with
      | some v => some (v, st)
      | none => some (createVersion st lineage none)
    | none => some (createVersion st lineage none)
  | VersionId.byName n =>
    match findByName st.versions n with
    | some v => some (v, st)
    | none => some (createVersion st lineage (some n))
  | VersionId.byStage s =>
    (findByStage st.versions s).map (fun v => (v, st))
  | VersionId.latest =>
    (findLatest st.versions).map (fun v => (v, st))

/-- Modelled from the spec: the default sub-version for a new link — the
auto-incrementing counter per logical key. -/
def nextSubVersion (subs : SubVersions) : String :=
  toString (1 + subs.foldl (fun m e => max m (subNum e.1)) 0)

/-- Append one artifact under the next sub-version of a key (append-only,
never overwriting an existing sub-version). -/
def appendSub (subs : SubVersions) (artifact : Nat) : SubVersions :=
  subs ++ [(nextSubVersion subs, artifact)]

/-- Add an artifact under a logical key of the two-level link mapping,
creating the key if absent. -/
def addToKey : List (LogicalKey × SubVersions) → LogicalKey → Nat →
    List (LogicalKey × SubVersions)
  | [], key, a => [(key, appendSub [] a)]
  | kv :: rest, key, a =>
    if kv.1 = key then (kv.1, appendSub kv.2 a) :: rest
    else kv :: addToKey rest key a

/-- The per-version update performed by an artifact link: the addressed
version gains one sub-version entry under the key, others are unchanged. -/
def linkUpd (vid : Nat) (key : LogicalKey) (artifact : Nat)
    (v : ModelVersionRec) : ModelVersionRec :=
  if v.id = vid then
    { v with data_artifact_ids := (addToKey v.data_artifact_ids key artifact) }
  else v

/-- Modelled from the spec: `link artifact to version` — append the artifact
id under `(logical key, next sub-version)` of the addressed version. -/
def linkArtifactToVersion (st : RegistryState) (vid : Nat) (key : LogicalKey)
    (artifact : Nat) : RegistryState :=
  { st with versions := st.versions.map (linkUpd vid key artifact) }

/-- Three successive artifact links to the same version and logical key, as
in the three failed-then-retried attempts of the recovery scenario. -/
def link3 (st : RegistryState) (vid : Nat) (key : LogicalKey)
    (a₁ a₂ a₃ : Nat) : RegistryState :=
  linkArtifactToVersion
    (linkArtifactToVersion (linkArtifactToVersion st vid key a₁) vid key a₂)
    vid key a₃

/-- The sub-version entries a two-level link mapping holds under one key. -/
def subsOf (links : List (LogicalKey × SubVersions)) (k : LogicalKey) :
    SubVersions :=
  match links.find? (fun kv => decide (kv.1 = k)) with
  | some kv => kv.2
  | none => []

/-- The sub-version entries a version holds under one logical key. -/
def keySubs (v : ModelVersionRec) (k : LogicalKey) : SubVersions :=
  subsOf v.data_artifact_ids k

/-- Reassign the stage labels of every version by an arbitrary function,
leaving ids, names, numbers and links unchanged. -/
def setStages (f : ModelVersionRec → Option String) (st : RegistryState) :
    RegistryState :=
  { st with versions := st.versions.map (fun v => { v with stage := f v }) }

/-- Modelled from the spec: `unlink on deletion` of a pipeline run — remove
that run's link from every model version, without deleting the versions. -/
def deletePipelineRun (st : RegistryState) (runId : Nat) : RegistryState :=
  { st with versions := st.versions.map (fun v =>
      { v with pipeline_run_ids :=
          v.pipeline_run_ids.filter (fun e => decide (e.2 ≠ runId)) }) }

/-- Modelled from the spec: `unlink on deletion` of an artifact — remove
that artifact's link entries from every model version, without deleting the
versions. -/
def deleteArtifact (st : RegistryState) (aid : Nat) : RegistryState :=
  { st with versions := st.versions.map (fun v =>
      { v with data_artifact_ids := v.data_artifact_ids.map (fun kv =>
          (kv.1, kv.2.filter (fun e => decide (e.2 ≠ aid)))) }) }

/-- Modelled from the spec: N sequential version creations for one model. -/
def createSeq (st : RegistryState) : Nat → RegistryState
  | 0 => st
  | n + 1 => (createVersion (createSeq st n) "" none).2

def demoVersionA : ModelVersionRec :=
  { id := 0, name := "1", number := 1, stage := some "production",
    data_artifact_ids := [(⟨"p", "s", "out"⟩, [("1", 10)])],
    pipeline_run_ids := [("run_a", 5), ("run_b", 6)] }

def demoVersionB : ModelVersionRec :=
  { id := 1, name := "2", number := 2, stage := none,
    data_artifact_ids := [], pipeline_run_ids := [] }

def demoRegistry : RegistryState :=
  ⟨[demoVersionA, demoVersionB], 2, [("L", 0)]⟩

def demoKey : LogicalKey := ⟨"bar", "produce", "data"⟩

def demoFreshState : RegistryState := ⟨[], 0, []⟩

def demoCreated : ModelVersionRec :=
  { id := 0, name := "1", number := 1, stage := none,
    data_artifact_ids := [], pipeline_run_ids := [] }

def demoAfterCreate : RegistryState := ⟨[demoCreated], 1, [("run", 0)]⟩

theorem resolveDeclaredInputs_ok_mem (steps : List (String × StepRun)) :
    ∀ (inputs : List (String × InputSpec)) (out : List (String × Nat)),
      resolveDeclaredInputs steps inputs = Except.ok out →
      ∀ p ∈ inputs, ∃ s a,
        dictGet steps p.2.step_name = some s ∧
        dictGet s.outputs p.2.output_name = some a ∧ (p.1, a) ∈ out := by
  intro inputs
  induction inputs with
  | nil => intro out _ p hp; simp at hp
  | cons hd tl ih =>
    obtain ⟨name, inp⟩ := hd
    intro out hok p hp
    cases hs : dictGet steps inp.step_name with
    | none =>
      simp only [resolveDeclaredInputs, hs] at hok
      exact Except.noConfusion hok
    | some s =>
      cases ha : dictGet s.outputs inp.output_name with
      | none =>
        simp only [resolveDeclaredInputs, hs, ha] at hok
        exact Except.noConfusion hok
      | some a =>
        cases hrest : resolveDeclaredInputs steps tl with
        | error e =>
          simp only [resolveDeclaredInputs, hs, ha, hrest] at hok
          exact Except.noConfusion hok
        | ok out' =>
          simp only [resolveDeclaredInputs, hs, ha, hrest,
            Except.ok.injEq] at hok
          subst hok
          rcases List.mem_cons.mp hp with rfl | htl
          · exact ⟨s, a, hs, ha, List.mem_cons_self _ _⟩
          · obtain ⟨s', a', h1, h2, h3⟩ := ih out' hrest p htl
            exact ⟨s', a', h1, h2, List.mem_cons_of_mem _ h3⟩

theorem resolveDeclaredInputs_error_shape (steps : List (String × StepRun)) :
    ∀ (inputs : List (String × InputSpec)) (e : ResolveError),
      resolveDeclaredInputs steps inputs = Except.error e →
      ∃ msg, e = ResolveError.inputResolution msg := by
  intro inputs
  induction inputs with
  | nil => intro e h; simp [resolveDeclaredInputs] at h
  | cons hd tl ih =>
    obtain ⟨name, inp⟩ := hd
    intro e h
    cases hs : dictGet steps inp.step_name with
    | none =>
      simp only [resolveDeclaredInputs, hs, Except.error.injEq] at h
      exact ⟨_, h.symm⟩
    | some s =>
      cases ha : dictGet s.outputs inp.output_name with
      | none =>
        simp only [resolveDeclaredInputs, hs, ha, Except.error.injEq] at h
        exact ⟨_, h.symm⟩
      | some a =>
        cases hrest : resolveDeclaredInputs steps tl with
        | error e' =>
          simp only [resolveDeclaredInputs, hs, ha, hrest,
            Except.error.injEq] at h
          subst h
          exact ih e' hrest
        | ok out' =>
          simp only [resolveDeclaredInputs, hs, ha, hrest] at h
          exact Except.noConfusion h

theorem resolveDeclaredInputs_fails (steps : List (String × StepRun))
    (inputs : List (String × InputSpec))
    (hfail : ∃ p ∈ inputs, inputFails steps p.2) :
    ∃ msg, resolveDeclaredInputs steps inputs =
      Except.error (ResolveError.inputResolution msg) := by
  cases hres : resolveDeclaredInputs steps inputs with
  | ok out =>
    exfalso
    obtain ⟨p, hp, hfl⟩ := hfail
    obtain ⟨s, a, h1, h2, _⟩ :=
      resolveDeclaredInputs_ok_mem steps inputs out hres p hp
    rcases hfl with h | ⟨s', hs', hout⟩
    · rw [h] at h1; cases h1
    · have hss : s' = s := by
        have := hs'.symm.trans h1
        injection this
      subst hss
      rw [hout] at h2; cases h2
  | error e =>
    obtain ⟨msg, rfl⟩ := resolveDeclaredInputs_error_shape steps inputs e hres
    exact ⟨msg, rfl⟩

theorem resolveParentIds_ok_forall₂ (steps : List (String × StepRun)) :
    ∀ (us : List String) (ids : List Nat),
      resolveParentIds steps us = Except.ok ids →
      List.Forall₂ (fun u pid => ∃ s, dictGet steps u = some s ∧ pid = s.id)
        us ids := by
  intro us
  induction us with
  | nil =>
    intro ids h
    simp only [resolveParentIds, Except.ok.injEq] at h
    subst h
    exact List.Forall₂.nil
  | cons u tl ih =>
    intro ids h
    cases hu : dictGet steps u with
    | none =>
      simp only [resolveParentIds, hu] at h
      exact Except.noConfusion h
    | some s =>
      cases hrec : resolveParentIds steps tl with
      | error e =>
        simp only [resolveParentIds, hu, hrec] at h
        exact Except.noConfusion h
      | ok ids' =>
        simp only [resolveParentIds, hu, hrec, Except.ok.injEq] at h
        subst h
        exact List.Forall₂.cons ⟨s, hu, rfl⟩ (ih ids' hrec)

theorem resolveParentIds_missing (steps : List (String × StepRun)) :
    ∀ (us : List String), (∃ u ∈ us, dictGet steps u = none) →
      ∃ u', u' ∈ us ∧ dictGet steps u' = none ∧
        resolveParentIds steps us = Except.error (ResolveError.keyError u') := by
  intro us
  induction us with
  | nil => rintro ⟨u, hu, _⟩; simp at hu
  | cons v tl ih =>
    rintro ⟨u, hu, hnone⟩
    cases hv : dictGet steps v with
    | none =>
      exact ⟨v, List.mem_cons_self _ _, hv, by simp [resolveParentIds, hv]⟩
    | some s =>
      rcases List.mem_cons.mp hu with rfl | htl
      · rw [hv] at hnone; cases hnone
      · obtain ⟨u', h1, h2, h3⟩ := ih ⟨u, htl, hnone⟩
        exact ⟨u', List.mem_cons_of_mem _ h1, h2,
          by simp [resolveParentIds, hv, h3]⟩

/-- C3: resolving a declared `(upstream_step_name, output_name)` input fails
with an `InputResolutionError` when the upstream step run is absent from the
current run or when the named output is absent from that step run's recorded
outputs; otherwise the input name is mapped to that step run's output
artifact. -/
theorem resolve_step_inputs_declared_spec (step : Step)
    (runSteps : List StepRun) :
    ((∃ p ∈ step.inputs, inputFails (stepsByName runSteps) p.2) →
      ∃ msg, resolve_step_inputs step runSteps =
        Except.error (ResolveError.inputResolution msg)) ∧
    (∀ arts parents,
      resolve_step_inputs step runSteps = Except.ok (arts, parents) →
      ∀ p ∈ step.inputs, ∃ s a,
        dictGet (stepsByName runSteps) p.2.step_name = some s ∧
        dictGet s.outputs p.2.output_name = some a ∧ (p.1, a) ∈ arts) := by
  constructor
  · intro hfail
    obtain ⟨msg, h⟩ :=
      resolveDeclaredInputs_fails (stepsByName runSteps) step.inputs hfail
    exact ⟨msg, by simp [resolve_step_inputs, h]⟩
  · intro arts parents hok p hp
    cases hd : resolveDeclaredInputs (stepsByName runSteps) step.inputs with
    | error e => simp [resolve_step_inputs, hd] at hok
    | ok declared =>
      cases hpids :
          resolveParentIds (stepsByName runSteps) step.upstream_steps with
      | error e => simp [resolve_step_inputs, hd, hpids] at hok
      | ok ids =>
        simp only [resolve_step_inputs, hd, hpids, Except.ok.injEq,
          Prod.mk.injEq] at hok
        obtain ⟨s, a, h1, h2, h3⟩ :=
          resolveDeclaredInputs_ok_mem _ _ _ hd p hp
        refine ⟨s, a, h1, h2, ?_⟩
        rw [← hok.1]
        exact List.mem_append_left _ h3

/-- Witness for C3: on a concrete run, the declared input `m` of the demo
step is mapped to the `model` output of the `trainer` step run. -/
theorem resolve_step_inputs_declared_spec_witness :
    ∃ s a, dictGet (stepsByName demoRunSteps) "trainer" = some s ∧
      dictGet s.outputs "model" = some a ∧
      (("m" : String), a) ∈ [(("m" : String), (42 : Nat)), ("ext", 5)] :=
  (resolve_step_inputs_declared_spec demoStepOk demoRunSteps).2
    [("m", 42), ("ext", 5)] [7] (by rfl)
    ("m", ⟨"trainer", "model"⟩) (by simp [demoStepOk])

/-- C7: on success the parent step identifiers correspond one-to-one to the
step's declared upstream-step names, and the external-artifact inputs have
no influence on the parent identifiers. -/
theorem resolve_step_inputs_parent_ids_spec (step : Step)
    (runSteps : List StepRun) :
    (∀ arts parents,
      resolve_step_inputs step runSteps = Except.ok (arts, parents) →
      List.Forall₂
        (fun u pid => ∃ s, dictGet (stepsByName runSteps) u = some s ∧
          pid = s.id)
        step.upstream_steps parents) ∧
    (∀ ext₁ ext₂ : List (String × Nat),
      (resolve_step_inputs
        { step with external_input_artifacts := ext₁ } runSteps).map Prod.snd =
      (resolve_step_inputs
        { step with external_input_artifacts := ext₂ } runSteps).map
          Prod.snd) := by
  constructor
  · intro arts parents hok
    cases hd : resolveDeclaredInputs (stepsByName runSteps) step.inputs with
    | error e => simp [resolve_step_inputs, hd] at hok
    | ok declared =>
      cases hpids :
          resolveParentIds (stepsByName runSteps) step.upstream_steps with
      | error e => simp [resolve_step_inputs, hd, hpids] at hok
      | ok ids =>
        simp only [resolve_step_inputs, hd, hpids, Except.ok.injEq,
          Prod.mk.injEq] at hok
        rw [← hok.2]
        exact resolveParentIds_ok_forall₂ _ _ _ hpids
  · intro ext₁ ext₂
    cases hd : resolveDeclaredInputs (stepsByName runSteps) step.inputs with
    | error e => simp [resolve_step_inputs, hd]
    | ok declared =>
      cases hpids :
          resolveParentIds (stepsByName runSteps) step.upstream_steps with
      | error e => simp [resolve_step_inputs, hd, hpids]
      | ok ids => simp [resolve_step_inputs, hd, hpids, Except.map]

/-- Witness for C7: on a concrete run, the single parent id `7` corresponds
to the single upstream name `trainer`. -/
theorem resolve_step_inputs_parent_ids_spec_witness :
    List.Forall₂
      (fun u pid => ∃ s, dictGet (stepsByName demoRunSteps) u = some s ∧
        pid = s.id)
      demoStepOk.upstream_steps [7] :=
  (resolve_step_inputs_parent_ids_spec demoStepOk demoRunSteps).1
    [("m", 42), ("ext", 5)] [7] (by rfl)

/-- C10: when a declared upstream-step name is absent from the run's recorded
step runs but all declared inputs resolve, `resolve_step_inputs` fails with a
plain `KeyError` from the parent-step-id lookup, not an
`InputResolutionError`. -/
theorem resolve_step_inputs_upstream_keyError (step : Step)
    (runSteps : List StepRun) (u : String)
    (hu : u ∈ step.upstream_steps)
    (habsent : dictGet (stepsByName runSteps) u = none)
    (hinputs : ∃ res, resolveDeclaredInputs (stepsByName runSteps) step.inputs
      = Except.ok res) :
    ∃ u', u' ∈ step.upstream_steps ∧
      dictGet (stepsByName runSteps) u' = none ∧
      resolve_step_inputs step runSteps =
        Except.error (ResolveError.keyError u') := by
  obtain ⟨res, hres⟩ := hinputs
  obtain ⟨u', h1, h2, h3⟩ := resolveParentIds_missing (stepsByName runSteps)
    step.upstream_steps ⟨u, hu, habsent⟩
  exact ⟨u', h1, h2, by simp [resolve_step_inputs, hres, h3]⟩

/-- Witness for C10: a demo step lists upstream step `ghost`, which has no
recorded step run; its declared input resolves, and the failure is a
`KeyError`. -/
theorem resolve_step_inputs_upstream_keyError_witness :
    ∃ u', u' ∈ demoStepBadUpstream.upstream_steps ∧
      dictGet (stepsByName demoRunSteps) u' = none ∧
      resolve_step_inputs demoStepBadUpstream demoRunSteps =
        Except.error (ResolveError.keyError u') :=
  resolve_step_inputs_upstream_keyError demoStepBadUpstream demoRunSteps
    "ghost" (by simp [demoStepBadUpstream]) (by rfl) ⟨[("m", 42)], by rfl⟩

theorem latestSub_mem_max (subs : SubVersions) :
    ∀ e, latestSub subs = some e →
      e ∈ subs ∧ ∀ e' ∈ subs, subNum e'.1 ≤ subNum e.1 := by
  induction subs with
  | nil => intro e h; simp [latestSub] at h
  | cons hd tl ih =>
    intro e h
    cases hrec : latestSub tl with
    | none =>
      simp only [latestSub, hrec, Option.some.injEq] at h
      subst h
      constructor
      · exact List.mem_cons_self _ _
      · intro e' he'
        rcases List.mem_cons.mp he' with rfl | htl
        · exact le_refl _
        · cases tl with
          | nil => simp at htl
          | cons x xs =>
            cases h' : latestSub xs with
            | none => simp [latestSub, h'] at hrec
            | some m =>
              simp only [latestSub, h'] at hrec
              split at hrec <;> exact Option.noConfusion hrec
    | some m =>
      obtain ⟨hmem, hmax⟩ := ih m hrec
      simp only [latestSub, hrec] at h
      by_cases hgt : subNum m.1 > subNum hd.1
      · rw [if_pos hgt] at h
        injection h with h
        subst h
        refine ⟨List.mem_cons_of_mem _ hmem, ?_⟩
        intro e' he'
        rcases List.mem_cons.mp he' with rfl | htl
        · exact le_of_lt hgt
        · exact hmax e' htl
      · rw [if_neg hgt] at h
        injection h with h
        subst h
        refine ⟨List.mem_cons_self _ _, ?_⟩
        intro e' he'
        rcases List.mem_cons.mp he' with rfl | htl
        · exact le_refl _
        · exact le_trans (hmax e' htl) (Nat.le_of_not_lt hgt)

/-- C4: when more than one logical key matches the requested name after
applying the supplied disambiguators, the lookup fails with the
`RuntimeError`-class ambiguous-reference error naming the colliding keys;
disambiguators narrowing the match to exactly one key return that key's
artifact. -/
theorem get_data_artifact_collision (links : List (LogicalKey × SubVersions))
    (name : String) (pipeline_name step_name : Option String)
    (version : Option String) :
    (2 ≤ (matchingKeys links name pipeline_name step_name).length →
      get_data_artifact links name pipeline_name step_name version =
        LookupResult.ambiguous
          ((matchingKeys links name pipeline_name step_name).map Prod.fst)) ∧
    (∀ kv, matchingKeys links name pipeline_name step_name = [kv] →
      ∀ e, latestSub kv.2 = some e →
        get_data_artifact links name pipeline_name step_name none =
          LookupResult.found e.2) := by
  constructor
  · intro h2
    cases hm : matchingKeys links name pipeline_name step_name with
    | nil => rw [hm] at h2; simp at h2
    | cons kv₁ tl =>
      cases tl with
      | nil => rw [hm] at h2; simp at h2
      | cons kv₂ rest => simp [get_data_artifact, hm]
  · intro kv hone e he
    simp [get_data_artifact, hone, he]

/-- C5: with exactly one matching key, an explicit sub-version returns the
artifact recorded under exactly that sub-version (not-found if absent), and
no explicit sub-version returns the artifact under the numerically highest
sub-version present. -/
theorem get_data_artifact_subversion (links : List (LogicalKey × SubVersions))
    (name : String) (pipeline_name step_name : Option String)
    (kv : LogicalKey × SubVersions)
    (hone : matchingKeys links name pipeline_name step_name = [kv]) :
    (∀ v a, dictGet kv.2 v = some a →
      get_data_artifact links name pipeline_name step_name (some v) =
        LookupResult.found a) ∧
    (∀ v, dictGet kv.2 v = none →
      get_data_artifact links name pipeline_name step_name (some v) =
        LookupResult.notFound) ∧
    (∀ e, latestSub kv.2 = some e →
      e ∈ kv.2 ∧ (∀ e' ∈ kv.2, subNum e'.1 ≤ subNum e.1) ∧
      get_data_artifact links name pipeline_name step_name none =
        LookupResult.found e.2) := by
  refine ⟨?_, ?_, ?_⟩
  · intro v a hv
    simp [get_data_artifact, hone, hv]
  · intro v hv
    simp [get_data_artifact, hone, hv]
  · intro e he
    obtain ⟨hmem, hmax⟩ := latestSub_mem_max kv.2 e he
    exact ⟨hmem, hmax, by simp [get_data_artifact, hone, he]⟩

/-- C6: with zero matching keys the lookup returns the not-found result and
never the ambiguous-reference error. -/
theorem get_data_artifact_not_found (links : List (LogicalKey × SubVersions))
    (name : String) (pipeline_name step_name : Option String)
    (version : Option String)
    (hzero : matchingKeys links name pipeline_name step_name = []) :
    get_data_artifact links name pipeline_name step_name version =
      LookupResult.notFound ∧
    ∀ cands, get_data_artifact links name pipeline_name step_name version ≠
      LookupResult.ambiguous cands := by
  have h : get_data_artifact links name pipeline_name step_name version =
      LookupResult.notFound := by
    simp [get_data_artifact, hzero]
  exact ⟨h, fun cands hc => by rw [h] at hc; cases hc⟩

/-- Witness for C4: with two keys ending in `artifact`, the undisambiguated
lookup is ambiguous, and adding step name `bar` resolves to that key's
artifact. -/
theorem get_data_artifact_collision_witness :
    get_data_artifact demoCollisionLinks "artifact" none none none =
      LookupResult.ambiguous
        ((matchingKeys demoCollisionLinks "artifact" none none).map
          Prod.fst) ∧
    get_data_artifact demoCollisionLinks "artifact" none (some "bar") none =
      LookupResult.found 100 :=
  ⟨(get_data_artifact_collision demoCollisionLinks "artifact" none none
      none).1 (by decide),
   (get_data_artifact_collision demoCollisionLinks "artifact" none
      (some "bar") none).2
      (⟨"bar", "bar", "artifact"⟩, [("1", 100)]) (by decide)
      ("1", 100) (by decide)⟩

/-- Witness for C5: with sub-versions `{"1": 100, "2": 101}`, the default
lookup returns 101 and requesting `"1"` returns 100. -/
theorem get_data_artifact_subversion_witness :
    get_data_artifact demoSubLinks "artifact" none none (some "1") =
      LookupResult.found 100 ∧
    get_data_artifact demoSubLinks "artifact" none none none =
      LookupResult.found 101 :=
  ⟨(get_data_artifact_subversion demoSubLinks "artifact" none none
      (⟨"foo", "bar", "artifact"⟩, [("1", 100), ("2", 101)])
      (by decide)).1 "1" 100 (by decide),
   ((get_data_artifact_subversion demoSubLinks "artifact" none none
      (⟨"foo", "bar", "artifact"⟩, [("1", 100), ("2", 101)])
      (by decide)).2.2 ("2", 101) (by decide)).2.2⟩

/-- Witness for C6: an empty link mapping with step disambiguator `bar`
yields not-found. -/
theorem get_data_artifact_not_found_witness :
    get_data_artifact [] "artifact" none (some "bar") none =
      LookupResult.notFound :=
  (get_data_artifact_not_found [] "artifact" none (some "bar") none
    (by decide)).1

theorem findLatest_mem_max (vs : List ModelVersionRec) :
    ∀ v, findLatest vs = some v →
      v ∈ vs ∧ ∀ w ∈ vs, w.number ≤ v.number := by
  induction vs with
  | nil => intro v h; simp [findLatest] at h
  | cons hd tl ih =>
    intro v h
    cases hrec : findLatest tl with
    | none =>
      simp only [findLatest, hrec, Option.some.injEq] at h
      subst h
      refine ⟨List.mem_cons_self _ _, ?_⟩
      intro w hw
      rcases List.mem_cons.mp hw with rfl | htl
      · exact le_refl _
      · cases tl with
        | nil => simp at htl
        | cons x xs =>
          cases h' : findLatest xs with
          | none => simp [findLatest, h'] at hrec
          | some m =>
            simp only [findLatest, h'] at hrec
            split at hrec <;> exact Option.noConfusion hrec
    | some m =>
      obtain ⟨hmem, hmax⟩ := ih m hrec
      simp only [findLatest, hrec] at h
      by_cases hgt : m.number > hd.number
      · rw [if_pos hgt] at h
        injection h with h
        subst h
        refine ⟨List.mem_cons_of_mem _ hmem, ?_⟩
        intro w hw
        rcases List.mem_cons.mp hw with rfl | htl
        · exact le_of_lt hgt
        · exact hmax w htl
      · rw [if_neg hgt] at h
        injection h with h
        subst h
        refine ⟨List.mem_cons_self _ _, ?_⟩
        intro w hw
        rcases List.mem_cons.mp hw with rfl | htl
        · exact le_refl _
        · exact le_trans (hmax w htl) (Nat.le_of_not_lt hgt)

theorem findLatest_eq_none (vs : List ModelVersionRec)
    (h : findLatest vs = none) : vs = [] := by
  cases vs with
  | nil => rfl
  | cons v rest =>
    cases h' : findLatest rest with
    | none => simp [findLatest, h'] at h
    | some w =>
      simp only [findLatest, h'] at h
      split at h <;> exact Option.noConfusion h

theorem findLatest_map_number_pres (g : ModelVersionRec → ModelVersionRec)
    (hg : ∀ v, (g v).number = v.number) :
    ∀ vs : List ModelVersionRec,
      findLatest (vs.map g) = (findLatest vs).map g := by
  intro vs
  induction vs with
  | nil => rfl
  | cons v rest ih =>
    cases h' : findLatest rest with
    | none => simp [findLatest, ih, h']
    | some w =>
      simp only [List.map_cons, findLatest, ih, h', Option.map_some',
        apply_ite, hg]
      by_cases hgt : w.number > v.number
      · simp [hgt]
      · simp [hgt]

/-- C8: resolving the `latest` qualifier returns the version with the
highest version number of the model, and reassigning stages arbitrarily
does not change which version (by id and number) `latest` resolves to. -/
theorem latest_resolves_to_max_number (st : RegistryState)
    (hne : st.versions ≠ []) (f : ModelVersionRec → Option String) :
    ∃ v, getModelVersion st VersionId.latest = some v ∧ v ∈ st.versions ∧
      (∀ w ∈ st.versions, w.number ≤ v.number) ∧
      ∃ v', getModelVersion (setStages f st) VersionId.latest = some v' ∧
        v'.id = v.id ∧ v'.number = v.number := by
  cases hl : findLatest st.versions with
  | none => exact absurd (findLatest_eq_none _ hl) hne
  | some v =>
    obtain ⟨hmem, hmax⟩ := findLatest_mem_max st.versions v hl
    refine ⟨v, hl, hmem, hmax, ?_⟩
    have hcomm := findLatest_map_number_pres (fun w => { w with stage := f w })
      (fun _ => rfl) st.versions
    rw [hl] at hcomm
    exact ⟨{ v with stage := f v }, hcomm, rfl, rfl⟩

/-- Witness for C8: in a registry whose versions have numbers 1 and 2 (the
stale one holding the `production` stage), `latest` resolves to number 2,
also after every stage is reassigned. -/
theorem latest_resolves_to_max_number_witness :
    ∃ v, getModelVersion demoRegistry VersionId.latest = some v ∧
      v ∈ demoRegistry.versions ∧
      (∀ w ∈ demoRegistry.versions, w.number ≤ v.number) ∧
      ∃ v', getModelVersion
          (setStages (fun _ => some "production") demoRegistry)
          VersionId.latest = some v' ∧
        v'.id = v.id ∧ v'.number = v.number :=
  latest_resolves_to_max_number demoRegistry (by decide)
    (fun _ => some "production")

/-- C9: deleting a pipeline run removes that run's entry from every model
version's run-link mapping while the version survives with all other links
unchanged; deleting an artifact removes its artifact-link entries while the
version survives with its run links unchanged. -/
theorem cascade_unlink (st : RegistryState) (runId aid : Nat) :
    (∀ v ∈ st.versions, ∃ v',
      v' ∈ (deletePipelineRun st runId).versions ∧
      v'.id = v.id ∧ v'.name = v.name ∧ v'.number = v.number ∧
      v'.data_artifact_ids = v.data_artifact_ids ∧
      v'.pipeline_run_ids =
        v.pipeline_run_ids.filter (fun e => decide (e.2 ≠ runId)) ∧
      (∀ e ∈ v'.pipeline_run_ids, e.2 ≠ runId) ∧
      (∀ e ∈ v.pipeline_run_ids, e.2 ≠ runId → e ∈ v'.pipeline_run_ids)) ∧
    (∀ v ∈ st.versions, ∃ v',
      v' ∈ (deleteArtifact st aid).versions ∧
      v'.id = v.id ∧ v'.name = v.name ∧ v'.number = v.number ∧
      v'.pipeline_run_ids = v.pipeline_run_ids ∧
      (∀ kv ∈ v'.data_artifact_ids, ∀ e ∈ kv.2, e.2 ≠ aid) ∧
      v'.data_artifact_ids = v.data_artifact_ids.map (fun kv =>
        (kv.1, kv.2.filter (fun e => decide (e.2 ≠ aid))))) := by
  constructor
  · intro v hv
    refine ⟨_, List.mem_map_of_mem _ hv, rfl, rfl, rfl, rfl, rfl, ?_, ?_⟩
    · intro e he
      have := List.of_mem_filter he
      simpa using this
    · intro e he hne
      exact List.mem_filter.mpr ⟨he, by simpa using hne⟩
  · intro v hv
    refine ⟨_, List.mem_map_of_mem _ hv, rfl, rfl, rfl, rfl, ?_, rfl⟩
    intro kv hkv e he
    obtain ⟨kv₀, _, heq⟩ := List.mem_map.mp hkv
    have h2 : kv.2 = kv₀.2.filter (fun e => decide (e.2 ≠ aid)) := by
      rw [← heq]
    rw [h2] at he
    have := List.of_mem_filter he
    simpa using this

/-- Witness for C9: deleting run id 5 from a registry removes the `run_a`
entry of the demo version, keeps the version with `run_b` and its artifact
links intact. -/
theorem cascade_unlink_witness :
    ∃ v', v' ∈ (deletePipelineRun demoRegistry 5).versions ∧
      v'.id = demoVersionA.id ∧ v'.name = demoVersionA.name ∧
      v'.number = demoVersionA.number ∧
      v'.data_artifact_ids = demoVersionA.data_artifact_ids ∧
      v'.pipeline_run_ids =
        demoVersionA.pipeline_run_ids.filter (fun e => decide (e.2 ≠ 5)) ∧
      (∀ e ∈ v'.pipeline_run_ids, e.2 ≠ 5) ∧
      (∀ e ∈ demoVersionA.pipeline_run_ids, e.2 ≠ 5 →
        e ∈ v'.pipeline_run_ids) :=
  (cascade_unlink demoRegistry 5 10).1 demoVersionA (by simp [demoRegistry])

theorem maxNumber_eq_foldl (vs : List ModelVersionRec) :
    maxNumber vs = (vs.map (fun v => v.number)).foldl max 0 := by
  simp [maxNumber, List.foldl_map]

theorem foldl_max_range (n a : Nat) :
    List.foldl max a ((List.range n).map (fun i => i + 1)) = max a n := by
  induction n generalizing a with
  | zero => simp
  | succ n ih =>
    rw [List.range_succ, List.map_append, List.foldl_append, ih]
    simp only [List.map_cons, List.map_nil, List.foldl_cons, List.foldl_nil]
    rw [Nat.max_assoc, Nat.max_eq_right (Nat.le_succ n)]

theorem createSeq_numbers (st : RegistryState) (h : st.versions = []) :
    ∀ n, (createSeq st n).versions.map (fun v => v.number) =
      (List.range n).map (fun i => i + 1) := by
  intro n
  induction n with
  | zero => simp [createSeq, h]
  | succ n ih =>
    have hmax : maxNumber (createSeq st n).versions = n := by
      rw [maxNumber_eq_foldl, ih, foldl_max_range]
      exact Nat.zero_max n
    simp only [createSeq, createVersion, List.map_append, List.map_cons,
      List.map_nil, ih, nextNumber, hmax, List.range_succ]
    rw [Nat.add_comm 1 n]

/-- C2: version numbers are assigned at creation as 1 + the maximum existing
version number (0 if no versions exist), existing numbers are never
reassigned by a creation, and N sequential creations from an empty model
yield exactly the pairwise-distinct numbers 1..N with no gaps or repeats. -/
theorem version_numbering (st₀ st : RegistryState) (lineage : String)
    (nm : Option String) (n : Nat) (h : st₀.versions = []) :
    ((createVersion st lineage nm).1.number = 1 + maxNumber st.versions ∧
      ((createVersion st lineage nm).2).versions.map (fun v => v.number) =
        st.versions.map (fun v => v.number) ++ [1 + maxNumber st.versions]) ∧
    ((createSeq st₀ n).versions.map (fun v => v.number) =
        (List.range n).map (fun i => i + 1) ∧
      ((createSeq st₀ n).versions.map (fun v => v.number)).Nodup) := by
  refine ⟨⟨rfl, by simp [createVersion, nextNumber]⟩, createSeq_numbers st₀ h n, ?_⟩
  rw [createSeq_numbers st₀ h n]
  exact (List.nodup_range ..).map (fun a b hab => by omega)

/-- Witness for C2: three sequential creations from an empty registry yield
version numbers `[1, 2, 3]`, and a creation on that registry assigns number
4 while leaving the existing numbers unchanged. -/
theorem version_numbering_witness :
    ((createVersion (createSeq ⟨[], 0, []⟩ 3) "L" none).1.number =
        1 + maxNumber (createSeq ⟨[], 0, []⟩ 3).versions ∧
      ((createVersion (createSeq ⟨[], 0, []⟩ 3) "L" none).2).versions.map
          (fun v => v.number) =
        (createSeq ⟨[], 0, []⟩ 3).versions.map (fun v => v.number) ++
          [1 + maxNumber (createSeq ⟨[], 0, []⟩ 3).versions] ∧
      (createSeq ⟨[], 0, []⟩ 3).versions.map (fun v => v.number) =
        [1, 2, 3]) ∧
    ((createSeq (⟨[], 0, []⟩ : RegistryState) 3).versions.map
        (fun v => v.number) =
      (List.range 3).map (fun i => i + 1) ∧
      ((createSeq (⟨[], 0, []⟩ : RegistryState) 3).versions.map
        (fun v => v.number)).Nodup) := by
  have h := version_numbering (⟨[], 0, []⟩ : RegistryState)
    (createSeq ⟨[], 0, []⟩ 3) "L" none 3 rfl
  exact ⟨⟨h.1.1, h.1.2, by decide⟩, h.2⟩

theorem dictGet_append_self {α : Type} (l : List (String × α)) (k : String)
    (x : α) : dictGet (l ++ [(k, x)]) k = some x := by
  induction l with
  | nil => simp [dictGet]
  | cons e rest ih =>
    obtain ⟨k', v⟩ := e
    simp [dictGet, ih]

theorem find?_map_pres (g : ModelVersionRec → ModelVersionRec)
    (p : ModelVersionRec → Bool) (hg : ∀ v, p (g v) = p v) :
    ∀ vs : List ModelVersionRec, (vs.map g).find? p = (vs.find? p).map g := by
  intro vs
  induction vs with
  | nil => rfl
  | cons v rest ih =>
    by_cases hp : p v = true
    · rw [List.map_cons, List.find?_cons_of_pos _ (by rw [hg]; exact hp),
        List.find?_cons_of_pos _ hp, Option.map_some']
    · rw [List.map_cons,
        List.find?_cons_of_neg _ (by rw [hg]; exact hp),
        List.find?_cons_of_neg _ hp, ih]

theorem find?_append_of_none {α : Type} (p : α → Bool) (x : α)
    (hx : p x = true) :
    ∀ vs : List α, vs.find? p = none → (vs ++ [x]).find? p = some x := by
  intro vs
  induction vs with
  | nil => intro _; simp [List.find?, hx]
  | cons v rest ih =>
    intro h
    have hv : ¬ p v = true :=
      List.find?_eq_none.mp h v (List.mem_cons_self _ _)
    have hrest : rest.find? p = none :=
      List.find?_eq_none.mpr
        (fun y hy => List.find?_eq_none.mp h y (List.mem_cons_of_mem _ hy))
    rw [List.cons_append, List.find?_cons_of_neg _ hv, ih hrest]

theorem linkUpd_id (vid : Nat) (k : LogicalKey) (a : Nat)
    (v : ModelVersionRec) : (linkUpd vid k a v).id = v.id := by
  unfold linkUpd; split <;> rfl

theorem linkUpd_name (vid : Nat) (k : LogicalKey) (a : Nat)
    (v : ModelVersionRec) : (linkUpd vid k a v).name = v.name := by
  unfold linkUpd; split <;> rfl

theorem subsOf_cons (kv : LogicalKey × SubVersions)
    (links : List (LogicalKey × SubVersions)) (k : LogicalKey) :
    subsOf (kv :: links) k = if kv.1 = k then kv.2 else subsOf links k := by
  by_cases hk : kv.1 = k
  · rw [if_pos hk]
    unfold subsOf
    rw [List.find?_cons_of_pos _ (by simp [hk])]
  · rw [if_neg hk]
    unfold subsOf
    rw [List.find?_cons_of_neg _ (by simp [hk])]

theorem subsOf_addToKey (k : LogicalKey) (a : Nat) :
    ∀ links : List (LogicalKey × SubVersions),
      subsOf (addToKey links k a) k = appendSub (subsOf links k) a := by
  intro links
  induction links with
  | nil =>
    unfold addToKey subsOf
    simp [List.find?]
  | cons kv rest ih =>
    by_cases hk : kv.1 = k
    · simp only [addToKey, if_pos hk, subsOf_cons, ih]
    · simp only [addToKey, if_neg hk, subsOf_cons, ih]

theorem appendSub_length (subs : SubVersions) (a : Nat) :
    (appendSub subs a).length = subs.length + 1 := by
  simp [appendSub]

theorem keySubs_linkUpd_self (vid : Nat) (k : LogicalKey) (a : Nat)
    (v : ModelVersionRec) (hv : v.id = vid) :
    keySubs (linkUpd vid k a v) k = appendSub (keySubs v k) a := by
  simp only [linkUpd, if_pos hv, keySubs]
  exact subsOf_addToKey k a v.data_artifact_ids

theorem findById_id (vs : List ModelVersionRec) (i : Nat)
    (v : ModelVersionRec) (h : findById vs i = some v) : v.id = i := by
  have := List.find?_some h
  simpa using this

theorem findById_link (st : RegistryState) (vid : Nat) (k : LogicalKey)
    (a : Nat) (w : ModelVersionRec)
    (h : findById st.versions vid = some w) :
    findById (linkArtifactToVersion st vid k a).versions vid =
      some (linkUpd vid k a w) := by
  unfold findById at h
  show (st.versions.map (linkUpd vid k a)).find? _ = _
  rw [find?_map_pres (linkUpd vid k a) _ (fun u => by simp [linkUpd_id]), h]
  rfl

theorem findByName_link (st : RegistryState) (vid : Nat) (k : LogicalKey)
    (a : Nat) (n : String) (w : ModelVersionRec)
    (h : findByName st.versions n = some w) :
    findByName (linkArtifactToVersion st vid k a).versions n =
      some (linkUpd vid k a w) := by
  unfold findByName at h
  show (st.versions.map (linkUpd vid k a)).find? _ = _
  rw [find?_map_pres (linkUpd vid k a) _ (fun u => by simp [linkUpd_name]), h]
  rfl

theorem getOrCreate_unset_after_link3 (st₁ : RegistryState) (L : String)
    (v : ModelVersionRec) (k : LogicalKey) (a₁ a₂ a₃ : Nat)
    (hctx : dictGet st₁.runContext L = some v.id)
    (hfind : findById st₁.versions v.id = some v) :
    ∃ v₂ st₂, getOrCreateModelVersion (link3 st₁ v.id k a₁ a₂ a₃) L
        VersionId.unset = some (v₂, st₂) ∧ v₂.id = v.id ∧
      (keySubs v₂ k).length = (keySubs v k).length + 3 := by
  have h1 := findById_link st₁ v.id k a₁ v hfind
  have h2 := findById_link _ v.id k a₂ _ h1
  have h3 := findById_link _ v.id k a₃ _ h2
  have hctx3 : dictGet (link3 st₁ v.id k a₁ a₂ a₃).runContext L =
      some v.id := hctx
  have h3' : findById (link3 st₁ v.id k a₁ a₂ a₃).versions v.id =
      some (linkUpd v.id k a₃ (linkUpd v.id k a₂ (linkUpd v.id k a₁ v))) := h3
  refine ⟨linkUpd v.id k a₃ (linkUpd v.id k a₂ (linkUpd v.id k a₁ v)),
    link3 st₁ v.id k a₁ a₂ a₃, ?_, ?_, ?_⟩
  · simp only [getOrCreateModelVersion, hctx3, h3']
  · rw [linkUpd_id, linkUpd_id, linkUpd_id]
  · have e1 : (linkUpd v.id k a₁ v).id = v.id := by rw [linkUpd_id]
    have e2 : (linkUpd v.id k a₂ (linkUpd v.id k a₁ v)).id = v.id := by
      rw [linkUpd_id, linkUpd_id]
    rw [keySubs_linkUpd_self _ _ _ _ e2, keySubs_linkUpd_self _ _ _ _ e1,
      keySubs_linkUpd_self _ _ _ _ rfl, appendSub_length, appendSub_length,
      appendSub_length]

theorem getOrCreate_byName_after_link3 (st₁ : RegistryState) (L n : String)
    (v : ModelVersionRec) (k : LogicalKey) (a₁ a₂ a₃ : Nat)
    (hfind : findByName st₁.versions n = some v) :
    ∃ v₂ st₂, getOrCreateModelVersion (link3 st₁ v.id k a₁ a₂ a₃) L
        (VersionId.byName n) = some (v₂, st₂) ∧ v₂.id = v.id ∧
      (keySubs v₂ k).length = (keySubs v k).length + 3 := by
  have h1 := findByName_link st₁ v.id k a₁ n v hfind
  have h2 := findByName_link _ v.id k a₂ n _ h1
  have h3 := findByName_link _ v.id k a₃ n _ h2
  have h3' : findByName (link3 st₁ v.id k a₁ a₂ a₃).versions n =
      some (linkUpd v.id k a₃ (linkUpd v.id k a₂ (linkUpd v.id k a₁ v))) := h3
  refine ⟨linkUpd v.id k a₃ (linkUpd v.id k a₂ (linkUpd v.id k a₁ v)),
    link3 st₁ v.id k a₁ a₂ a₃, ?_, ?_, ?_⟩
  · simp only [getOrCreateModelVersion, h3']
  · rw [linkUpd_id, linkUpd_id, linkUpd_id]
  · have e1 : (linkUpd v.id k a₁ v).id = v.id := by rw [linkUpd_id]
    have e2 : (linkUpd v.id k a₂ (linkUpd v.id k a₁ v)).id = v.id := by
      rw [linkUpd_id, linkUpd_id]
    rw [keySubs_linkUpd_self _ _ _ _ e2, keySubs_linkUpd_self _ _ _ _ e1,
      keySubs_linkUpd_self _ _ _ _ rfl, appendSub_length, appendSub_length,
      appendSub_length]

theorem create_locates (st : RegistryState) (L : String) (nm : Option String)
    (hwf : ∀ w ∈ st.versions, w.id < st.nextId) :
    dictGet ((createVersion st L nm).2).runContext L =
      some ((createVersion st L nm).1).id ∧
    findById ((createVersion st L nm).2).versions
      ((createVersion st L nm).1).id = some ((createVersion st L nm).1) := by
  constructor
  · exact dictGet_append_self st.runContext L _
  · apply find?_append_of_none
    · simp [createVersion]
    · apply List.find?_eq_none.mpr
      intro w hw
      simp only [decide_eq_true_eq]
      exact Nat.ne_of_lt (hwf w hw)

theorem createName_locates (st : RegistryState) (L n : String)
    (hnone : findByName st.versions n = none) :
    findByName ((createVersion st L (some n)).2).versions n =
      some ((createVersion st L (some n)).1) := by
  apply find?_append_of_none
  · simp [createVersion]
  · exact hnone

/-- C1: once a get-or-create call has produced a model version for a run
lineage (with an unset or an explicit-name identifier), a subsequent
get-or-create call with the same lineage and the same identifier — after
three artifact links were appended to the same logical key, as in three
failed-then-retried attempts — returns a version with the identical id
carrying all three appended sub-version entries under that key. -/
theorem recovery_reattachment (st : RegistryState) (L : String)
    (k : LogicalKey) (a₁ a₂ a₃ : Nat)
    (hwf : ∀ w ∈ st.versions, w.id < st.nextId) :
    (∀ v st₁, getOrCreateModelVersion st L VersionId.unset = some (v, st₁) →
      ∃ v₂ st₂, getOrCreateModelVersion (link3 st₁ v.id k a₁ a₂ a₃) L
          VersionId.unset = some (v₂, st₂) ∧ v₂.id = v.id ∧
        (keySubs v₂ k).length = (keySubs v k).length + 3) ∧
    (∀ n v st₁,
      getOrCreateModelVersion st L (VersionId.byName n) = some (v, st₁) →
      ∃ v₂ st₂, getOrCreateModelVersion (link3 st₁ v.id k a₁ a₂ a₃) L
          (VersionId.byName n) = some (v₂, st₂) ∧ v₂.id = v.id ∧
        (keySubs v₂ k).length = (keySubs v k).length + 3) := by
  constructor
  · intro v st₁ h1
    cases hctx : dictGet st.runContext L with
    | some vid =>
      cases hfd : findById st.versions vid with
      | some v₀ =>
        simp only [getOrCreateModelVersion, hctx, hfd, Option.some.injEq,
          Prod.mk.injEq] at h1
        obtain ⟨rfl, rfl⟩ := h1
        have hvid : v₀.id = vid := findById_id _ _ _ hfd
        exact getOrCreate_unset_after_link3 st L v₀ k a₁ a₂ a₃
          (by rw [hvid]; exact hctx) (by rw [hvid]; exact hfd)
      | none =>
        simp only [getOrCreateModelVersion, hctx, hfd, Option.some.injEq] at h1
        obtain ⟨hloc1, hloc2⟩ := create_locates st L none hwf
        rw [h1] at hloc1 hloc2
        exact getOrCreate_unset_after_link3 st₁ L v k a₁ a₂ a₃ hloc1 hloc2
    | none =>
      simp only [getOrCreateModelVersion, hctx, Option.some.injEq] at h1
      obtain ⟨hloc1, hloc2⟩ := create_locates st L none hwf
      rw [h1] at hloc1 hloc2
      exact getOrCreate_unset_after_link3 st₁ L v k a₁ a₂ a₃ hloc1 hloc2
  · intro n v st₁ h1
    cases hfd : findByName st.versions n with
    | some v₀ =>
      simp only [getOrCreateModelVersion, hfd, Option.some.injEq,
        Prod.mk.injEq] at h1
      obtain ⟨rfl, rfl⟩ := h1
      exact getOrCreate_byName_after_link3 st L n v₀ k a₁ a₂ a₃ hfd
    | none =>
      simp only [getOrCreateModelVersion, hfd, Option.some.injEq] at h1
      have hloc := createName_locates st L n hfd
      rw [h1] at hloc
      exact getOrCreate_byName_after_link3 st₁ L n v k a₁ a₂ a₃ hloc

/-- Witness for C1: from an empty registry, the first unset get-or-create
for lineage `run` creates version id 0; after three artifact links to the
same logical key, the second unset get-or-create for `run` returns id 0
with three sub-version entries under the key. -/
theorem recovery_reattachment_witness :
    getOrCreateModelVersion demoFreshState "run" VersionId.unset =
      some (demoCreated, demoAfterCreate) ∧
    ∃ v₂ st₂, getOrCreateModelVersion
        (link3 demoAfterCreate demoCreated.id demoKey 10 11 12) "run"
        VersionId.unset = some (v₂, st₂) ∧ v₂.id = demoCreated.id ∧
      (keySubs v₂ demoKey).length =
        (keySubs demoCreated demoKey).length + 3 :=
  ⟨by decide,
   (recovery_reattachment demoFreshState "run" demoKey 10 11 12
      (by simp [demoFreshState])).1 demoCreated demoAfterCreate (by decide)⟩

end ZenML

